import Mathlib

/-!
Verification of the Kosher Konnect data-pipeline scripts
(`scripts/merge-data.js`, `scripts/fetch-osm-data.js`, `scripts/build-data.js`,
`scripts/fetch-by-metro.js`) against their natural-language specification.

Modelling conventions (shallow embedding of the JavaScript source):

* JavaScript numbers (IEEE-754 doubles) are modelled as rationals `ℚ`; all
  arithmetic on coordinates is exact.  `Math.round` rounds half toward
  positive infinity, i.e. `Math.round x = ⌊x + 1/2⌋`, modelled by `jsRound`.
* The scripts build dictionary keys as template strings such as
  `` `${category}-${Math.round(lat*10000)}-${Math.round(lon*10000)}` ``.
  For the category names actually flowing through the pipeline (the fixed
  hyphen-free `CATEGORIES` enum) that string is uniquely parsed, so the key
  is modelled as the triple `String × ℤ × ℤ` it encodes.  For the grid key of
  `createAggregatedPoints` the JS string holds the float `n * 0.3`; the map
  `n ↦ float (n * 0.3)` is injective, so the integer index `n` is kept.
* GeoJSON features are flattened: `f.properties.category` becomes
  `f.category`, `f.geometry.coordinates = [lon, lat]` becomes the fields
  `f.lon` and `f.lat`.
* Nullable JS fields (`website`, `address`, ...) are `Option String`, `none`
  standing for `null`/`undefined`.  In the pipeline those fields are produced
  by `x || null` chains and are therefore never the empty string, so JS
  truthiness of such a field coincides with `Option.isSome`.
* JS `Map` and plain-object dictionaries are association lists in insertion
  order (`Object.entries` enumerates non-index string keys in insertion
  order); `Map.set` replaces the value in place, as does `grid[key] = ...`.
* `Array.prototype.indexOf` compares by object identity; the merge loop only
  ever looks up objects that are pairwise distinct as values (at most one
  feature per deduplication key is retained), so value equality
  (`List.findIdx?`) is an exact model at every reachable state.
-/

/-- JavaScript `Math.round`: round half toward `+∞`.  Stated via the
executable `Rat.floor`; `jsRound_eq_floor` links it to `Int.floor`. -/
def jsRound (x : ℚ) : ℤ := Rat.floor (x + 1/2)

theorem jsRound_eq_floor (x : ℚ) : jsRound x = ⌊x + 1/2⌋ := by
  have h : Rat.floor (x + 1/2) = ⌊(x + 1/2 : ℚ)⌋ := rfl
  rw [jsRound, h]

theorem jsRound_eq_iff (x : ℚ) (n : ℤ) :
    jsRound x = n ↔ (n : ℚ) - 1/2 ≤ x ∧ x < (n : ℚ) + 1/2 := by
  rw [jsRound_eq_floor, Int.floor_eq_iff]
  constructor
  · rintro ⟨h1, h2⟩
    constructor <;> linarith
  · rintro ⟨h1, h2⟩
    constructor <;> linarith

/-- A point-of-interest record as used by `merge-data.js` and
`fetch-osm-data.js`: flattened GeoJSON `Feature` with
`geometry.coordinates = [lon, lat]`. -/
structure Feature where
  category : String
  name : String
  address : Option String
  website : Option String
  lon : ℚ
  lat : ℚ
deriving DecidableEq, Repr

/-- The dictionary keys built by the scripts, modelled as the triple a key
string `` `${category}-${a}-${b}` `` encodes. -/
abbrev FKey := String × ℤ × ℤ

/-- `merge-data.js` `CATEGORIES`. -/
def CATEGORIES : List String :=
  ["synagogues", "restaurants", "groceries", "chabad",
   "mikvahs", "schools", "jcc", "judaica", "vaults"]

/-- `build-data.js` `VALID_CATEGORIES`. -/
def VALID_CATEGORIES : List String :=
  ["synagogues", "restaurants", "groceries", "chabad",
   "mikvahs", "schools", "jcc", "judaica"]

/-- `merge-data.js` `featureKey`:
`` `${category}-${Math.round(lat*10000)}-${Math.round(lon*10000)}` ``. -/
def featureKey (f : Feature) : FKey :=
  (f.category, jsRound (f.lat * 10000), jsRound (f.lon * 10000))

/-- `fetch-osm-data.js` deduplication key (inside `deduplicateFeatures`):
`` `${category}-${Math.round(lat*1000)}-${Math.round(lon*1000)}` ``. -/
def dedupKey (f : Feature) : FKey :=
  (f.category, jsRound (f.lat * 1000), jsRound (f.lon * 1000))

/-- `merge-data.js` `GRID_SIZE = 0.3`. -/
def GRID_SIZE : ℚ := 3/10

/-- The grid key of `createAggregatedPoints`: the cell index
`Math.round(coord / GRID_SIZE)` per axis (the JS string holds
`index * GRID_SIZE`, which determines the index uniquely). -/
def gridKey (f : Feature) : FKey :=
  (f.category, jsRound (f.lat / GRID_SIZE), jsRound (f.lon / GRID_SIZE))

-- ------------------------------------------------------------------
-- `fetch-osm-data.js` : `deduplicateFeatures`
-- ------------------------------------------------------------------

/-- `fetch-osm-data.js` `deduplicateFeatures`: walk the list, keep a `seen`
set of keys, push a feature onto `unique` only when its key is new. -/
def deduplicateFeatures (fs : List Feature) : List Feature :=
  (fs.foldl
    (fun (acc : List FKey × List Feature) f =>
      let key := dedupKey f
      if key ∈ acc.1 then acc else (key :: acc.1, acc.2 ++ [f]))
    ([], [])).2

/-- Recursive restatement of `deduplicateFeatures` used in proofs. -/
def dedupAux (seen : List FKey) : List Feature → List Feature
  | [] => []
  | f :: fs =>
    if dedupKey f ∈ seen then dedupAux seen fs
    else f :: dedupAux (dedupKey f :: seen) fs

theorem dedup_foldl_eq_aux (fs : List Feature) :
    ∀ (seen : List FKey) (acc : List Feature),
      (fs.foldl
        (fun (acc : List FKey × List Feature) f =>
          let key := dedupKey f
          if key ∈ acc.1 then acc else (key :: acc.1, acc.2 ++ [f]))
        (seen, acc)).2 = acc ++ dedupAux seen fs := by
  induction fs with
  | nil => intro seen acc; simp [dedupAux]
  | cons f fs ih =>
    intro seen acc
    by_cases h : dedupKey f ∈ seen
    · simp [List.foldl_cons, dedupAux, h, ih]
    · simp [List.foldl_cons, dedupAux, h, ih]

theorem deduplicateFeatures_eq_aux (fs : List Feature) :
    deduplicateFeatures fs = dedupAux [] fs := by
  simpa [deduplicateFeatures] using dedup_foldl_eq_aux fs [] []

example :
    deduplicateFeatures
      [⟨"jcc", "a", none, none, 1, 1⟩, ⟨"jcc", "b", none, none, 1, 1⟩]
    = [⟨"jcc", "a", none, none, 1, 1⟩] := by with_unfolding_all decide

theorem dedupAux_nodup_and_fresh (fs : List Feature) :
    ∀ seen : List FKey,
      ((dedupAux seen fs).map dedupKey).Nodup
      ∧ ∀ g ∈ dedupAux seen fs, dedupKey g ∉ seen := by
  induction fs with
  | nil => intro seen; simp [dedupAux]
  | cons f fs ih =>
    intro seen
    by_cases h : dedupKey f ∈ seen
    · simpa [dedupAux, h] using ih seen
    · have ihk := ih (dedupKey f :: seen)
      refine ⟨?_, ?_⟩
      · simp only [dedupAux, if_neg h, List.map_cons, List.nodup_cons]
        refine ⟨?_, ihk.1⟩
        intro hmem
        obtain ⟨g, hg, hkey⟩ := List.mem_map.1 hmem
        exact (ihk.2 g hg) (by simp [hkey])
      · intro g hg
        simp only [dedupAux, if_neg h, List.mem_cons] at hg
        rcases hg with rfl | hg
        · exact h
        · intro hs
          exact (ihk.2 g hg) (List.mem_cons_of_mem _ hs)

theorem dedupAux_covers (fs : List Feature) :
    ∀ (seen : List FKey) (f : Feature), f ∈ fs →
      dedupKey f ∈ seen ∨ ∃ g ∈ dedupAux seen fs, dedupKey g = dedupKey f := by
  induction fs with
  | nil => intro seen f hf; cases hf
  | cons f0 fs ih =>
    intro seen f hf
    by_cases h : dedupKey f0 ∈ seen
    · rcases List.mem_cons.1 hf with rfl | hf
      · exact Or.inl h
      · simpa [dedupAux, h] using ih seen f hf
    · rcases List.mem_cons.1 hf with rfl | hf
      · exact Or.inr ⟨f, by simp [dedupAux, h]⟩
      · rcases ih (dedupKey f0 :: seen) f hf with hs | ⟨g, hg, hkey⟩
        · rcases List.mem_cons.1 hs with heq | hs
          · exact Or.inr ⟨f0, by simp [dedupAux, h], heq.symm⟩
          · exact Or.inl hs
        · exact Or.inr ⟨g, by simp [dedupAux, h, hg], hkey⟩

theorem dedupAux_first (fs : List Feature) :
    ∀ (seen : List FKey) (g : Feature), g ∈ dedupAux seen fs →
      fs.find? (fun f => dedupKey f = dedupKey g) = some g := by
  induction fs with
  | nil => intro seen g hg; simp [dedupAux] at hg
  | cons f0 fs ih =>
    intro seen g hg
    by_cases h : dedupKey f0 ∈ seen
    · simp only [dedupAux, if_pos h] at hg
      have hfresh := (dedupAux_nodup_and_fresh fs seen).2 g hg
      have hne : dedupKey f0 ≠ dedupKey g := fun he => hfresh (he ▸ h)
      simp only [List.find?_cons, decide_eq_false hne]
      exact ih seen g hg
    · simp only [dedupAux, if_neg h, List.mem_cons] at hg
      rcases hg with rfl | hg
      · simp [List.find?_cons]
      · have hfresh := (dedupAux_nodup_and_fresh fs (dedupKey f0 :: seen)).2 g hg
        have hne : dedupKey f0 ≠ dedupKey g := by
          intro he
          exact hfresh (by simp [he])
        simp only [List.find?_cons, decide_eq_false hne]
        exact ih (dedupKey f0 :: seen) g hg

theorem dedupAux_length (fs : List Feature) :
    ∀ seen : List FKey, (dedupAux seen fs).length ≤ fs.length := by
  induction fs with
  | nil => intro seen; simp [dedupAux]
  | cons f fs ih =>
    intro seen
    by_cases h : dedupKey f ∈ seen
    · simp only [dedupAux, if_pos h]
      exact Nat.le_succ_of_le (ih seen)
    · simp only [dedupAux, if_neg h, List.length_cons]
      exact Nat.succ_le_succ (ih _)

/-- Claim C5: `deduplicateFeatures` keeps no two features with the same
deduplication key (category plus lat/lon rounded via `Math.round(x*1000)`),
every input feature shares its key with a retained feature, and the retained
feature for a key is the first input feature with that key. -/
theorem deduplicateFeatures_spec (fs : List Feature) :
    ((deduplicateFeatures fs).map dedupKey).Nodup
    ∧ (∀ f ∈ fs, ∃ g ∈ deduplicateFeatures fs, dedupKey g = dedupKey f)
    ∧ (∀ g ∈ deduplicateFeatures fs,
        fs.find? (fun f => dedupKey f = dedupKey g) = some g) := by
  rw [deduplicateFeatures_eq_aux]
  refine ⟨(dedupAux_nodup_and_fresh fs []).1, ?_, ?_⟩
  · intro f hf
    rcases dedupAux_covers fs [] f hf with hs | hex
    · cases hs
    · exact hex
  · intro g hg
    exact dedupAux_first fs [] g hg

-- ------------------------------------------------------------------
-- `merge-data.js` : the merge loop (`main`, lines 116-152)
-- ------------------------------------------------------------------

/-- The state of the merge loop: the `seen` map (key -> feature, a JS `Map`
as an association list) and the `merged` array. -/
structure MergeState where
  seen : List (FKey × Feature)
  merged : List Feature
deriving DecidableEq, Repr

/-- `Map.get` on the association list. -/
def seenLookup : List (FKey × Feature) → FKey → Option Feature
  | [], _ => none
  | (k', f) :: rest, k => if k' = k then some f else seenLookup rest k

/-- `Map.set`: replace the value in place if the key exists, else append. -/
def seenSet : List (FKey × Feature) → FKey → Feature → List (FKey × Feature)
  | [], k, f => [(k, f)]
  | (k', g) :: rest, k, f =>
    if k' = k then (k', f) :: rest else (k', g) :: seenSet rest k f

/-- One iteration of the first merge loop (OSM data): skip invalid
categories, and push the feature only when its key is new. -/
def mergeOsmStep (s : MergeState) (f : Feature) : MergeState :=
  if f.category ∈ CATEGORIES then
    let key := featureKey f
    if (seenLookup s.seen key).isSome then s
    else { seen := seenSet s.seen key f, merged := s.merged ++ [f] }
  else s

/-- Completeness score used by the second merge loop:
`(properties.website ? 1 : 0) + (properties.address ? 1 : 0)`. -/
def score (f : Feature) : Nat :=
  (if f.website.isSome then 1 else 0) + (if f.address.isSome then 1 else 0)

/-- One iteration of the second merge loop (detailed data): on a key clash
replace the previously merged feature in place exactly when the new feature
scores strictly higher (`merged.indexOf(existing)` is modelled by
`List.findIdx?`; see the header note on object identity). -/
def mergeDetailedStep (s : MergeState) (f : Feature) : MergeState :=
  if f.category ∈ CATEGORIES then
    let key := featureKey f
    match seenLookup s.seen key with
    | some existing =>
      if score f > score existing then
        match s.merged.findIdx? (fun g => g = existing) with
        | some idx =>
          { seen := seenSet s.seen key f, merged := s.merged.set idx f }
        | none => s
      else s
    | none => { seen := seenSet s.seen key f, merged := s.merged ++ [f] }
  else s

/-- The whole merge of `merge-data.js` `main`: OSM features first, then the
detailed features, starting from an empty `seen` map and `merged` array. -/
def mergeFeatures (osm detailed : List Feature) : List Feature :=
  (detailed.foldl mergeDetailedStep (osm.foldl mergeOsmStep ⟨[], []⟩)).merged

theorem mergeOsmStep_length (s : MergeState) (f : Feature) :
    (mergeOsmStep s f).merged.length ≤ s.merged.length + 1 := by
  simp only [mergeOsmStep]
  repeat' split
  all_goals simp

theorem mergeDetailedStep_length (s : MergeState) (f : Feature) :
    (mergeDetailedStep s f).merged.length ≤ s.merged.length + 1 := by
  simp only [mergeDetailedStep]
  repeat' split
  all_goals try rw [List.length_set]
  all_goals simp

theorem foldl_merged_length_le
    (step : MergeState → Feature → MergeState)
    (hstep : ∀ s f, (step s f).merged.length ≤ s.merged.length + 1) :
    ∀ (fs : List Feature) (s : MergeState),
      (fs.foldl step s).merged.length ≤ s.merged.length + fs.length := by
  intro fs
  induction fs with
  | nil => intro s; simp
  | cons f fs ih =>
    intro s
    calc (List.foldl step (step s f) fs).merged.length
        ≤ (step s f).merged.length + fs.length := ih (step s f)
      _ ≤ s.merged.length + 1 + fs.length :=
          Nat.add_le_add_right (hstep s f) _
      _ = s.merged.length + (f :: fs).length := by
          simp [List.length_cons]
          omega

/-- Claim C2: deduplication never increases the record count, neither in
`deduplicateFeatures` nor in the merge loop of `merge-data.js` (`merged` has
at most as many entries as the two inputs together). -/
theorem dedup_never_increases_count (fs osm detailed : List Feature) :
    (deduplicateFeatures fs).length ≤ fs.length
    ∧ (mergeFeatures osm detailed).length ≤ osm.length + detailed.length := by
  constructor
  · rw [deduplicateFeatures_eq_aux]
    exact dedupAux_length fs []
  · unfold mergeFeatures
    have h1 := foldl_merged_length_le mergeOsmStep mergeOsmStep_length osm ⟨[], []⟩
    have h2 := foldl_merged_length_le mergeDetailedStep mergeDetailedStep_length
      detailed (osm.foldl mergeOsmStep ⟨[], []⟩)
    simp only [List.length_nil] at h1
    omega

/-- Claim C3: during the second merge loop, a detailed feature whose
deduplication key (category plus lat/lon rounded via `Math.round(x*10000)`)
clashes with an already-merged feature replaces that feature in place
if and only if its completeness score (website + address) is strictly
greater; otherwise the state is unchanged. -/
theorem mergeDetailedStep_replace_iff (s : MergeState) (f existing : Feature)
    (idx : Nat)
    (hcat : f.category ∈ CATEGORIES)
    (hseen : seenLookup s.seen (featureKey f) = some existing)
    (hidx : s.merged.findIdx? (fun g => g = existing) = some idx) :
    (score f > score existing →
      mergeDetailedStep s f =
        { seen := seenSet s.seen (featureKey f) f, merged := s.merged.set idx f })
    ∧ (¬ score f > score existing → mergeDetailedStep s f = s) := by
  constructor
  · intro hgt
    unfold mergeDetailedStep
    rw [if_pos hcat]
    simp only [hseen, hidx, if_pos hgt]
  · intro hle
    unfold mergeDetailedStep
    rw [if_pos hcat]
    simp only [hseen, if_neg hle]

/-- Witness for C3 at concrete inputs: a detailed feature with a website
replaces the website-less feature already merged at the same key. -/
theorem mergeDetailedStep_replace_iff_witness :
    mergeDetailedStep
      ⟨[((("jcc", 0, 0) : FKey), ⟨"jcc", "old", none, none, 0, 0⟩)],
       [⟨"jcc", "old", none, none, 0, 0⟩]⟩
      ⟨"jcc", "new", none, some "https://x.example", 0, 0⟩
    = ⟨[((("jcc", 0, 0) : FKey),
         ⟨"jcc", "new", none, some "https://x.example", 0, 0⟩)],
       [⟨"jcc", "new", none, some "https://x.example", 0, 0⟩]⟩ := by
  have h := mergeDetailedStep_replace_iff
    ⟨[((("jcc", 0, 0) : FKey), ⟨"jcc", "old", none, none, 0, 0⟩)],
     [⟨"jcc", "old", none, none, 0, 0⟩]⟩
    ⟨"jcc", "new", none, some "https://x.example", 0, 0⟩
    ⟨"jcc", "old", none, none, 0, 0⟩
    0
    (by with_unfolding_all decide)
    (by with_unfolding_all decide)
    (by with_unfolding_all decide)
  rw [h.1 (by with_unfolding_all decide)]
  with_unfolding_all decide

-- ------------------------------------------------------------------
-- `merge-data.js` : `createAggregatedPoints`
-- ------------------------------------------------------------------

/-- A grid accumulator cell: `{ category, count, sumLat, sumLon, names }`. -/
structure Cell where
  category : String
  count : Nat
  sumLat : ℚ
  sumLon : ℚ
  names : List String
deriving DecidableEq, Repr

/-- The fresh cell `{ category, count: 0, sumLat: 0, sumLon: 0, names: [] }`. -/
def initCell (cat : String) : Cell := ⟨cat, 0, 0, 0, []⟩

/-- The loop body applied to one feature:
`count++; sumLat += lat; sumLon += lon;` and push the name when it is
truthy and not `'Unknown'`. -/
def cellAdd (c : Cell) (f : Feature) : Cell :=
  { c with
    count := c.count + 1
    sumLat := c.sumLat + f.lat
    sumLon := c.sumLon + f.lon
    names :=
      if f.name ≠ "" ∧ f.name ≠ "Unknown" then c.names ++ [f.name]
      else c.names }

/-- `grid[key]` update: create the cell on first sight (in insertion-order
position, at the end), then mutate it in place. -/
def gridUpdate : List (FKey × Cell) → FKey → Feature → List (FKey × Cell)
  | [], k, f => [(k, cellAdd (initCell f.category) f)]
  | (k', c) :: rest, k, f =>
    if k' = k then (k', cellAdd c f) :: rest
    else (k', c) :: gridUpdate rest k f

/-- The accumulation loop of `createAggregatedPoints`. -/
def buildGrid (fs : List Feature) : List (FKey × Cell) :=
  fs.foldl (fun g f => gridUpdate g (gridKey f) f) []

/-- An aggregated heat-map point:
`{ properties: { category, name, weight }, geometry: [avgLon, avgLat] }`. -/
structure AggFeature where
  category : String
  name : String
  weight : Nat
  lon : ℚ
  lat : ℚ
deriving DecidableEq, Repr

/-- The label of a cell: the part of the first recorded name before the
first `-` or `,`, trimmed, if shorter than 30 characters, else the
category; the category when no name was recorded. -/
def cellLabel (c : Cell) : String :=
  match c.names with
  | [] => c.category
  | n :: _ =>
    let firstPart := (n.takeWhile (fun ch => ch ≠ '-' ∧ ch ≠ ',')).trim
    if firstPart.length < 30 then firstPart else c.category

/-- Conversion of a finished cell to an output feature:
coordinates `[sumLon/count, sumLat/count]`, weight `count`. -/
def cellToFeature (c : Cell) : AggFeature :=
  { category := c.category
    name := cellLabel c
    weight := c.count
    lon := c.sumLon / (c.count : ℚ)
    lat := c.sumLat / (c.count : ℚ) }

/-- `merge-data.js` `createAggregatedPoints`: accumulate the grid, then emit
one feature per cell in insertion order (`Object.entries`). -/
def createAggregatedPoints (fs : List Feature) : List AggFeature :=
  (buildGrid fs).map (fun kc => cellToFeature kc.2)

/-- The features of `fs` that fall into grid cell `k`. -/
def membersOf (fs : List Feature) (k : FKey) : List Feature :=
  fs.filter (fun f => gridKey f = k)

/-- The grid cell an aggregated output feature itself falls into. -/
def aggGridKey (a : AggFeature) : FKey :=
  (a.category, jsRound (a.lat / GRID_SIZE), jsRound (a.lon / GRID_SIZE))

/-- Association-list lookup in the grid. -/
def gridFind : List (FKey × Cell) → FKey → Option Cell
  | [], _ => none
  | (k', c) :: rest, k => if k' = k then some c else gridFind rest k

/-- The cell obtained by folding the member list of a key, `none` when the
member list is empty. -/
def cellOfList : List Feature → Option Cell
  | [] => none
  | f :: m => some (m.foldl cellAdd (cellAdd (initCell f.category) f))

theorem gridFind_update (g : List (FKey × Cell)) (k k' : FKey) (f : Feature) :
    gridFind (gridUpdate g k f) k' =
      if k' = k then
        some (cellAdd ((gridFind g k).getD (initCell f.category)) f)
      else gridFind g k' := by
  induction g with
  | nil =>
    by_cases h : k' = k
    · subst h; simp [gridUpdate, gridFind]
    · have h2 : ¬ k = k' := fun he => h he.symm
      simp [gridUpdate, gridFind, h, h2]
  | cons kc rest ih =>
    obtain ⟨k0, c0⟩ := kc
    by_cases h0 : k0 = k
    · subst h0
      by_cases h1 : k' = k0
      · subst h1; simp [gridUpdate, gridFind]
      · have h2 : ¬ k0 = k' := fun he => h1 he.symm
        simp [gridUpdate, gridFind, h1, h2]
    · by_cases h1 : k' = k
      · subst h1
        have h2 : ¬ k0 = k' := h0
        simp [gridUpdate, gridFind, h0, h2, ih]
      · by_cases h2 : k0 = k'
        · subst h2
          simp [gridUpdate, gridFind, h0, h1, ih]
        · simp [gridUpdate, gridFind, h0, h1, h2, ih]

theorem gridFind_foldl (fs : List Feature) :
    ∀ (g : List (FKey × Cell)) (k : FKey),
      gridFind (fs.foldl (fun g' f => gridUpdate g' (gridKey f) f) g) k =
        match gridFind g k, membersOf fs k with
        | some c, m => some (m.foldl cellAdd c)
        | none, [] => none
        | none, f :: m => some (m.foldl cellAdd (cellAdd (initCell f.category) f)) := by
  induction fs with
  | nil =>
    intro g k
    cases h : gridFind g k <;> simp [membersOf, h]
  | cons f0 fs ih =>
    intro g k
    rw [List.foldl_cons, ih (gridUpdate g (gridKey f0) f0) k, gridFind_update]
    by_cases hk : k = gridKey f0
    · have hk' : gridKey f0 = k := hk.symm
      cases h : gridFind g k <;>
        simp [membersOf, List.filter_cons, hk', if_pos hk, h, List.foldl_cons]
    · have hk' : ¬ gridKey f0 = k := fun he => hk he.symm
      cases h : gridFind g k <;>
        simp [membersOf, List.filter_cons, hk', if_neg hk, h]

theorem gridFind_buildGrid (fs : List Feature) (k : FKey) :
    gridFind (buildGrid fs) k = cellOfList (membersOf fs k) := by
  rw [buildGrid, gridFind_foldl fs [] k]
  cases h : membersOf fs k <;> simp [gridFind, cellOfList]

theorem gridUpdate_keys (g : List (FKey × Cell)) (k : FKey) (f : Feature) :
    (gridUpdate g k f).map Prod.fst =
      if k ∈ g.map Prod.fst then g.map Prod.fst
      else g.map Prod.fst ++ [k] := by
  induction g with
  | nil => simp [gridUpdate]
  | cons kc rest ih =>
    obtain ⟨k0, c0⟩ := kc
    by_cases h0 : k0 = k
    · subst h0
      simp [gridUpdate]
    · have h1 : ¬ k = k0 := fun he => h0 he.symm
      by_cases h2 : k ∈ rest.map Prod.fst <;>
        simp [gridUpdate, h0, h1, h2, ih]

theorem gridUpdate_keys_nodup (g : List (FKey × Cell)) (k : FKey) (f : Feature)
    (h : (g.map Prod.fst).Nodup) : ((gridUpdate g k f).map Prod.fst).Nodup := by
  rw [gridUpdate_keys]
  by_cases hk : k ∈ g.map Prod.fst
  · simpa [hk] using h
  · simp [hk, List.nodup_append, h]

theorem buildGrid_keys_nodup (fs : List Feature) :
    ((buildGrid fs).map Prod.fst).Nodup := by
  have main : ∀ (l : List Feature) (g : List (FKey × Cell)),
      (g.map Prod.fst).Nodup →
      ((l.foldl (fun g' f => gridUpdate g' (gridKey f) f) g).map Prod.fst).Nodup := by
    intro l
    induction l with
    | nil => intro g hg; simpa using hg
    | cons f l ih =>
      intro g hg
      exact ih _ (gridUpdate_keys_nodup g (gridKey f) f hg)
  exact main fs [] (by simp)

theorem gridFind_of_mem (g : List (FKey × Cell)) (k : FKey) (c : Cell)
    (hnd : (g.map Prod.fst).Nodup) (h : (k, c) ∈ g) :
    gridFind g k = some c := by
  induction g with
  | nil => cases h
  | cons kc rest ih =>
    obtain ⟨k0, c0⟩ := kc
    rcases List.mem_cons.1 h with heq | hmem
    · obtain ⟨rfl, rfl⟩ := Prod.mk.injEq .. ▸ heq
      simp [gridFind]
    · have hk : k0 ≠ k := by
        intro he
        subst he
        have hmem' : k0 ∈ rest.map Prod.fst :=
          List.mem_map.2 ⟨(k0, c), hmem, rfl⟩
        have hnd1 : k0 ∉ rest.map Prod.fst := by
          rw [List.map_cons, List.nodup_cons] at hnd
          exact hnd.1
        exact hnd1 hmem'
      have hnd' : (rest.map Prod.fst).Nodup := by
        rw [List.map_cons, List.nodup_cons] at hnd
        exact hnd.2
      simp [gridFind, hk, ih hnd' hmem]

theorem mem_of_gridFind (g : List (FKey × Cell)) (k : FKey) (c : Cell)
    (h : gridFind g k = some c) : (k, c) ∈ g := by
  induction g with
  | nil => simp [gridFind] at h
  | cons kc rest ih =>
    obtain ⟨k0, c0⟩ := kc
    by_cases hk : k0 = k
    · subst hk
      simp [gridFind] at h
      simp [h]
    · simp [gridFind, hk] at h
      exact List.mem_cons_of_mem _ (ih h)

theorem cell_foldl_stats (m : List Feature) :
    ∀ c : Cell,
      (m.foldl cellAdd c).category = c.category
      ∧ (m.foldl cellAdd c).count = c.count + m.length
      ∧ (m.foldl cellAdd c).sumLat = c.sumLat + (m.map Feature.lat).sum
      ∧ (m.foldl cellAdd c).sumLon = c.sumLon + (m.map Feature.lon).sum := by
  induction m with
  | nil => intro c; simp
  | cons f m ih =>
    intro c
    obtain ⟨h1, h2, h3, h4⟩ := ih (cellAdd c f)
    refine ⟨?_, ?_, ?_, ?_⟩
    · rw [List.foldl_cons, h1]; rfl
    · rw [List.foldl_cons, h2]
      simp [cellAdd]
      omega
    · rw [List.foldl_cons, h3]
      simp [cellAdd]
      ring
    · rw [List.foldl_cons, h4]
      simp [cellAdd]
      ring

theorem sum_le_card_mul (l : List ℚ) (b : ℚ) (h : ∀ x ∈ l, x ≤ b) :
    l.sum ≤ (l.length : ℚ) * b := by
  induction l with
  | nil => simp
  | cons x l ih =>
    have hx : x ≤ b := h x (List.mem_cons_self x l)
    have hl : l.sum ≤ (l.length : ℚ) * b :=
      ih fun y hy => h y (List.mem_cons_of_mem x hy)
    simp only [List.sum_cons, List.length_cons]
    push_cast
    linarith

theorem card_mul_le_sum (l : List ℚ) (b : ℚ) (h : ∀ x ∈ l, b ≤ x) :
    (l.length : ℚ) * b ≤ l.sum := by
  induction l with
  | nil => simp
  | cons x l ih =>
    have hx : b ≤ x := h x (List.mem_cons_self x l)
    have hl : (l.length : ℚ) * b ≤ l.sum :=
      ih fun y hy => h y (List.mem_cons_of_mem x hy)
    simp only [List.sum_cons, List.length_cons]
    push_cast
    linarith

theorem sum_lt_card_mul (l : List ℚ) (b : ℚ) (hl : l ≠ [])
    (h : ∀ x ∈ l, x < b) : l.sum < (l.length : ℚ) * b := by
  cases l with
  | nil => exact absurd rfl hl
  | cons x l =>
    have hx : x < b := h x (List.mem_cons_self x l)
    have hrest : l.sum ≤ (l.length : ℚ) * b :=
      sum_le_card_mul l b fun y hy => le_of_lt (h y (List.mem_cons_of_mem x hy))
    simp only [List.sum_cons, List.length_cons]
    push_cast
    linarith

theorem map_div_sum (l : List ℚ) (d : ℚ) :
    (l.map (fun x => x / d)).sum = l.sum / d := by
  induction l with
  | nil => simp
  | cons x l ih => simp [ih, add_div]

/-- Mean of a nonempty list of values that all round (after scaling by
`1/G`) to the same integer `n` rounds to `n` as well. -/
theorem jsRound_avg (l : List ℚ) (hl : l ≠ []) (G : ℚ) (n : ℤ)
    (h : ∀ x ∈ l, jsRound (x / G) = n) :
    jsRound ((l.sum / (l.length : ℚ)) / G) = n := by
  have hlen : 0 < (l.length : ℚ) := by
    have := List.length_pos.2 hl
    exact_mod_cast this
  have hbounds : ∀ x ∈ l.map (fun x => x / G),
      (n : ℚ) - 1/2 ≤ x ∧ x < (n : ℚ) + 1/2 := by
    intro x hx
    obtain ⟨y, hy, rfl⟩ := List.mem_map.1 hx
    exact (jsRound_eq_iff _ n).1 (h y hy)
  have hlow : ((l.map (fun x => x / G)).length : ℚ) * ((n : ℚ) - 1/2)
      ≤ (l.map (fun x => x / G)).sum :=
    card_mul_le_sum _ _ fun x hx => (hbounds x hx).1
  have hhigh : (l.map (fun x => x / G)).sum
      < ((l.map (fun x => x / G)).length : ℚ) * ((n : ℚ) + 1/2) :=
    sum_lt_card_mul _ _ (by simpa using hl) fun x hx => (hbounds x hx).2
  rw [List.length_map, map_div_sum] at hlow hhigh
  have heq : (l.sum / (l.length : ℚ)) / G = (l.sum / G) / (l.length : ℚ) := by
    rw [div_div, div_div, mul_comm]
  rw [heq, jsRound_eq_iff]
  constructor
  · rw [le_div_iff₀ hlen]
    linarith
  · rw [div_lt_iff₀ hlen]
    linarith

theorem membersOf_keys (fs : List Feature) (k : FKey) :
    ∀ x ∈ membersOf fs k, x ∈ fs ∧ gridKey x = k := by
  intro x hx
  rw [membersOf] at hx
  have hx' := List.mem_filter.1 hx
  exact ⟨hx'.1, of_decide_eq_true hx'.2⟩

theorem cell_sound (fs : List Feature) (k : FKey) (c : Cell)
    (h : gridFind (buildGrid fs) k = some c) :
    membersOf fs k ≠ []
    ∧ c.category = k.1
    ∧ c.count = (membersOf fs k).length
    ∧ c.sumLat = ((membersOf fs k).map Feature.lat).sum
    ∧ c.sumLon = ((membersOf fs k).map Feature.lon).sum
    ∧ aggGridKey (cellToFeature c) = k := by
  rw [gridFind_buildGrid] at h
  obtain ⟨k1, k2, k3⟩ := k
  cases hm : membersOf fs (k1, k2, k3) with
  | nil => rw [hm] at h; simp [cellOfList] at h
  | cons f m =>
    rw [hm] at h
    simp only [cellOfList, Option.some.injEq] at h
    obtain ⟨hcat, hcount, hlat, hlon⟩ :=
      cell_foldl_stats m (cellAdd (initCell f.category) f)
    have hkeys := membersOf_keys fs (k1, k2, k3)
    have hf : f ∈ membersOf fs (k1, k2, k3) := by
      rw [hm]; exact List.mem_cons_self f m
    have hfkey := (hkeys f hf).2
    have hfcat : f.category = k1 := congrArg Prod.fst hfkey
    have hflat : jsRound (f.lat / GRID_SIZE) = k2 := by
      have := congrArg (fun p => p.2.1) hfkey
      simpa [gridKey] using this
    have hflon : jsRound (f.lon / GRID_SIZE) = k3 := by
      have := congrArg (fun p => p.2.2) hfkey
      simpa [gridKey] using this
    have hc_cat : c.category = k1 := by
      rw [← h] at *
      rw [hcat]
      simpa [cellAdd, initCell] using hfcat
    have hc_count : c.count = (membersOf fs (k1, k2, k3)).length := by
      rw [← h, hcount, hm]
      simp [cellAdd, initCell]
      omega
    have hc_lat : c.sumLat = ((membersOf fs (k1, k2, k3)).map Feature.lat).sum := by
      rw [← h, hlat, hm]
      simp [cellAdd, initCell]
    have hc_lon : c.sumLon = ((membersOf fs (k1, k2, k3)).map Feature.lon).sum := by
      rw [← h, hlon, hm]
      simp [cellAdd, initCell]
    rw [← hm]
    refine ⟨by rw [hm]; simp, hc_cat, hc_count, hc_lat, hc_lon, ?_⟩
    have hne : membersOf fs (k1, k2, k3) ≠ [] := by rw [hm]; simp
    have hlenpos : (membersOf fs (k1, k2, k3)).length ≠ 0 := by
      rw [hm]; simp
    have hlat_round :
        jsRound ((c.sumLat / (c.count : ℚ)) / GRID_SIZE) = k2 := by
      rw [hc_lat, hc_count]
      have hmapne : (membersOf fs (k1, k2, k3)).map Feature.lat ≠ [] := by
        simpa using hne
      have hall : ∀ x ∈ (membersOf fs (k1, k2, k3)).map Feature.lat,
          jsRound (x / GRID_SIZE) = k2 := by
        intro x hx
        obtain ⟨y, hy, rfl⟩ := List.mem_map.1 hx
        have hk := (hkeys y hy).2
        have := congrArg (fun p => p.2.1) hk
        simpa [gridKey] using this
      have := jsRound_avg ((membersOf fs (k1, k2, k3)).map Feature.lat)
        hmapne GRID_SIZE k2 hall
      simpa [List.length_map] using this
    have hlon_round :
        jsRound ((c.sumLon / (c.count : ℚ)) / GRID_SIZE) = k3 := by
      rw [hc_lon, hc_count]
      have hmapne : (membersOf fs (k1, k2, k3)).map Feature.lon ≠ [] := by
        simpa using hne
      have hall : ∀ x ∈ (membersOf fs (k1, k2, k3)).map Feature.lon,
          jsRound (x / GRID_SIZE) = k3 := by
        intro x hx
        obtain ⟨y, hy, rfl⟩ := List.mem_map.1 hx
        have hk := (hkeys y hy).2
        have := congrArg (fun p => p.2.2) hk
        simpa [gridKey] using this
      have := jsRound_avg ((membersOf fs (k1, k2, k3)).map Feature.lon)
        hmapne GRID_SIZE k3 hall
      simpa [List.length_map] using this
    simp [aggGridKey, cellToFeature, hc_cat, hlat_round, hlon_round]

theorem countP_fst_eq_of_nodup (g : List (FKey × Cell)) (k : FKey) :
    (g.map Prod.fst).Nodup →
    g.countP (fun kc => kc.1 = k) = if k ∈ g.map Prod.fst then 1 else 0 := by
  induction g with
  | nil => intro _; simp
  | cons kc rest ih =>
    intro hnd
    obtain ⟨k0, c0⟩ := kc
    rw [List.map_cons, List.nodup_cons] at hnd
    rw [List.countP_cons, ih hnd.2]
    by_cases h0 : k0 = k
    · subst h0
      simp [hnd.1]
    · have h1 : ¬ k = k0 := fun he => h0 he.symm
      by_cases h2 : k ∈ rest.map Prod.fst <;> simp [h0, h1, h2]

theorem buildGrid_mem_keys (fs : List Feature) (k : FKey) :
    k ∈ (buildGrid fs).map Prod.fst ↔ membersOf fs k ≠ [] := by
  constructor
  · intro hk
    obtain ⟨⟨k', c⟩, hmem, heq⟩ := List.mem_map.1 hk
    subst heq
    have hfind := gridFind_of_mem (buildGrid fs) _ c (buildGrid_keys_nodup fs) hmem
    rw [gridFind_buildGrid] at hfind
    cases hm : membersOf fs ((k', c).1) with
    | nil => rw [hm] at hfind; simp [cellOfList] at hfind
    | cons f m => simp [hm]
  · intro hne
    cases hm : membersOf fs k with
    | nil => exact absurd hm hne
    | cons f m =>
      have hfind : gridFind (buildGrid fs) k =
          some (m.foldl cellAdd (cellAdd (initCell f.category) f)) := by
        rw [gridFind_buildGrid, hm, cellOfList]
      have := mem_of_gridFind _ _ _ hfind
      exact List.mem_map.2 ⟨_, this, rfl⟩

/-- Claim C1: `createAggregatedPoints` groups features into grid cells keyed
by category and by lat/lon rounded to multiples of `0.3` degrees, and emits
exactly one output feature per non-empty cell, whose coordinates are the
arithmetic mean of the member coordinates and whose weight is the number of
members of the cell. -/
theorem createAggregatedPoints_spec (fs : List Feature) (k : FKey) :
    ((createAggregatedPoints fs).filter (fun a => aggGridKey a = k)).length
      = (if membersOf fs k = [] then 0 else 1)
    ∧ (∀ a ∈ createAggregatedPoints fs, aggGridKey a = k →
        a.category = k.1
        ∧ a.weight = (membersOf fs k).length
        ∧ a.lat = ((membersOf fs k).map Feature.lat).sum / ((membersOf fs k).length : ℚ)
        ∧ a.lon = ((membersOf fs k).map Feature.lon).sum / ((membersOf fs k).length : ℚ)) := by
  have hnd := buildGrid_keys_nodup fs
  have hsound : ∀ kc ∈ buildGrid fs,
      aggGridKey (cellToFeature kc.2) = kc.1
      ∧ kc.2.category = kc.1.1
      ∧ kc.2.count = (membersOf fs kc.1).length
      ∧ kc.2.sumLat = ((membersOf fs kc.1).map Feature.lat).sum
      ∧ kc.2.sumLon = ((membersOf fs kc.1).map Feature.lon).sum := by
    intro kc hkc
    obtain ⟨k', c⟩ := kc
    have hfind := gridFind_of_mem (buildGrid fs) k' c hnd hkc
    obtain ⟨_, h2, h3, h4, h5, h6⟩ := cell_sound fs k' c hfind
    exact ⟨h6, h2, h3, h4, h5⟩
  constructor
  · rw [← List.countP_eq_length_filter, createAggregatedPoints, List.countP_map]
    have hcongr : (buildGrid fs).countP
          ((fun a => decide (aggGridKey a = k)) ∘ fun kc => cellToFeature kc.2)
        = (buildGrid fs).countP (fun kc => kc.1 = k) := by
      apply List.countP_congr
      intro kc hkc
      simp only [Function.comp_apply, decide_eq_decide]
      rw [(hsound kc hkc).1]
    rw [hcongr, countP_fst_eq_of_nodup _ _ hnd]
    by_cases hmem : k ∈ (buildGrid fs).map Prod.fst
    · have := (buildGrid_mem_keys fs k).1 hmem
      simp [hmem, this]
    · have : ¬ membersOf fs k ≠ [] := fun hne => hmem ((buildGrid_mem_keys fs k).2 hne)
      simp only [not_not] at this
      simp [hmem, this]
  · intro a ha hak
    obtain ⟨kc, hkc, heq⟩ := List.mem_map.1 ha
    obtain ⟨h6, h2, h3, h4, h5⟩ := hsound kc hkc
    have hk1 : kc.1 = k := by rw [← h6, heq, hak]
    subst hk1
    refine ⟨?_, ?_, ?_, ?_⟩
    · rw [← heq]; simpa [cellToFeature] using h2
    · rw [← heq]; simpa [cellToFeature] using h3
    · rw [← heq]
      simp only [cellToFeature]
      rw [h4, h3]
    · rw [← heq]
      simp only [cellToFeature]
      rw [h5, h3]

/-- Witness for C1: two features in the same cell produce one aggregated
point of weight 2 at their average position. -/
theorem createAggregatedPoints_spec_witness :
    ((createAggregatedPoints
        [⟨"jcc", "a", none, none, 0, 0⟩, ⟨"jcc", "b", none, none, (1:ℚ)/10, 0⟩]).filter
      (fun a => aggGridKey a = (("jcc", 0, 0) : FKey))).length = 1 := by
  have h := (createAggregatedPoints_spec
    [⟨"jcc", "a", none, none, 0, 0⟩, ⟨"jcc", "b", none, none, (1:ℚ)/10, 0⟩]
    (("jcc", 0, 0) : FKey)).1
  rw [h]
  with_unfolding_all decide

theorem gridUpdate_count_sum (g : List (FKey × Cell)) (k : FKey) (f : Feature) :
    ((gridUpdate g k f).map (fun kc => kc.2.count)).sum
      = ((g.map (fun kc => kc.2.count)).sum) + 1 := by
  induction g with
  | nil => simp [gridUpdate, cellAdd, initCell]
  | cons kc rest ih =>
    obtain ⟨k0, c0⟩ := kc
    by_cases h0 : k0 = k
    · subst h0
      simp [gridUpdate, cellAdd]
      omega
    · simp [gridUpdate, h0, ih]
      omega

theorem buildGrid_count_sum (fs : List Feature) :
    ∀ g : List (FKey × Cell),
      ((fs.foldl (fun g' f => gridUpdate g' (gridKey f) f) g).map
        (fun kc => kc.2.count)).sum
      = (g.map (fun kc => kc.2.count)).sum + fs.length := by
  induction fs with
  | nil => intro g; simp
  | cons f fs ih =>
    intro g
    rw [List.foldl_cons, ih (gridUpdate g (gridKey f) f), gridUpdate_count_sum]
    simp [List.length_cons]
    omega

/-- Claim C8: grid aggregation conserves the establishment count: the
weights of the aggregated points sum to the number of input features. -/
theorem createAggregatedPoints_weight_sum (fs : List Feature) :
    ((createAggregatedPoints fs).map AggFeature.weight).sum = fs.length := by
  rw [createAggregatedPoints, List.map_map]
  have h : (AggFeature.weight ∘ fun kc => cellToFeature kc.2)
      = fun (kc : FKey × Cell) => kc.2.count := by
    funext kc
    rfl
  rw [h]
  have := buildGrid_count_sum fs []
  simpa [buildGrid] using this

-- ------------------------------------------------------------------
-- Claim C6: coordinate ranges through the merge pipeline
-- ------------------------------------------------------------------

/-- Coordinates within the GeoJSON range `[-180,180] × [-90,90]`. -/
def featureInRange (f : Feature) : Prop :=
  -180 ≤ f.lon ∧ f.lon ≤ 180 ∧ -90 ≤ f.lat ∧ f.lat ≤ 90

/-- Range invariant for aggregated points. -/
def aggInRange (a : AggFeature) : Prop :=
  -180 ≤ a.lon ∧ a.lon ≤ 180 ∧ -90 ≤ a.lat ∧ a.lat ≤ 90

instance (f : Feature) : Decidable (featureInRange f) := by
  unfold featureInRange; infer_instance

instance (a : AggFeature) : Decidable (aggInRange a) := by
  unfold aggInRange; infer_instance

theorem mergeOsmStep_mem (s : MergeState) (f x : Feature)
    (h : x ∈ (mergeOsmStep s f).merged) : x ∈ s.merged ∨ x = f := by
  simp only [mergeOsmStep] at h
  split at h
  · split at h
    · exact Or.inl h
    · simp only at h
      rcases List.mem_append.1 h with hm | hm
      · exact Or.inl hm
      · simp at hm
        exact Or.inr hm
  · exact Or.inl h

theorem mergeDetailedStep_mem (s : MergeState) (f x : Feature)
    (h : x ∈ (mergeDetailedStep s f).merged) : x ∈ s.merged ∨ x = f := by
  simp only [mergeDetailedStep] at h
  split at h
  · split at h
    · split at h
      · split at h
        · simp only at h
          rcases List.mem_or_eq_of_mem_set h with hm | hm
          · exact Or.inl hm
          · exact Or.inr hm
        · exact Or.inl h
      · exact Or.inl h
    · simp only at h
      rcases List.mem_append.1 h with hm | hm
      · exact Or.inl hm
      · simp at hm
        exact Or.inr hm
  · exact Or.inl h

theorem foldl_merged_mem
    (step : MergeState → Feature → MergeState)
    (hstep : ∀ s f x, x ∈ (step s f).merged → x ∈ s.merged ∨ x = f) :
    ∀ (fs : List Feature) (s : MergeState) (x : Feature),
      x ∈ (fs.foldl step s).merged → x ∈ s.merged ∨ x ∈ fs := by
  intro fs
  induction fs with
  | nil => intro s x h; exact Or.inl h
  | cons f fs ih =>
    intro s x h
    rcases ih (step s f) x h with hm | hm
    · rcases hstep s f x hm with hm' | hm'
      · exact Or.inl hm'
      · exact Or.inr (by simp [hm'])
    · exact Or.inr (List.mem_cons_of_mem _ hm)

theorem mergeFeatures_mem (osm detailed : List Feature) (x : Feature)
    (h : x ∈ mergeFeatures osm detailed) : x ∈ osm ∨ x ∈ detailed := by
  rw [mergeFeatures] at h
  rcases foldl_merged_mem mergeDetailedStep mergeDetailedStep_mem detailed _ x h
    with hm | hm
  · rcases foldl_merged_mem mergeOsmStep mergeOsmStep_mem osm _ x hm with hm' | hm'
    · simp at hm'
    · exact Or.inl hm'
  · exact Or.inr hm

theorem avg_in_bounds (l : List ℚ) (hl : l ≠ []) (lo hi : ℚ)
    (h : ∀ x ∈ l, lo ≤ x ∧ x ≤ hi) :
    lo ≤ l.sum / (l.length : ℚ) ∧ l.sum / (l.length : ℚ) ≤ hi := by
  have hlen : 0 < (l.length : ℚ) := by
    have := List.length_pos.2 hl
    exact_mod_cast this
  have hlow : (l.length : ℚ) * lo ≤ l.sum :=
    card_mul_le_sum l lo fun x hx => (h x hx).1
  have hhigh : l.sum ≤ (l.length : ℚ) * hi :=
    sum_le_card_mul l hi fun x hx => (h x hx).2
  constructor
  · rw [le_div_iff₀ hlen]
    linarith
  · rw [div_le_iff₀ hlen]
    linarith

/-- Claim C6: if every input feature has coordinates in
`[-180,180] × [-90,90]`, then so does every merged feature and every
aggregated heat-map point produced by the pipeline of `merge-data.js`. -/
theorem merge_pipeline_in_range (osm detailed : List Feature)
    (h : ∀ f ∈ osm ++ detailed, featureInRange f) :
    (∀ f ∈ mergeFeatures osm detailed, featureInRange f)
    ∧ (∀ a ∈ createAggregatedPoints (mergeFeatures osm detailed), aggInRange a) := by
  have hmerged : ∀ f ∈ mergeFeatures osm detailed, featureInRange f := by
    intro f hf
    rcases mergeFeatures_mem osm detailed f hf with hm | hm
    · exact h f (List.mem_append.2 (Or.inl hm))
    · exact h f (List.mem_append.2 (Or.inr hm))
  refine ⟨hmerged, ?_⟩
  intro a ha
  obtain ⟨kc, hkc, heq⟩ := List.mem_map.1 ha
  obtain ⟨k', c⟩ := kc
  have hfind := gridFind_of_mem _ k' c
    (buildGrid_keys_nodup (mergeFeatures osm detailed)) hkc
  obtain ⟨hne, _, hcount, hlat, hlon, _⟩ :=
    cell_sound (mergeFeatures osm detailed) k' c hfind
  set members := membersOf (mergeFeatures osm detailed) k' with hmm
  have hmemin : ∀ x ∈ members, featureInRange x := by
    intro x hx
    exact hmerged x ((membersOf_keys _ k' x hx).1)
  have hlatb : ∀ y ∈ members.map Feature.lat, -90 ≤ y ∧ y ≤ 90 := by
    intro y hy
    obtain ⟨x, hx, rfl⟩ := List.mem_map.1 hy
    have := hmemin x hx
    exact ⟨this.2.2.1, this.2.2.2⟩
  have hlonb : ∀ y ∈ members.map Feature.lon, -180 ≤ y ∧ y ≤ 180 := by
    intro y hy
    obtain ⟨x, hx, rfl⟩ := List.mem_map.1 hy
    have := hmemin x hx
    exact ⟨this.1, this.2.1⟩
  have hlatmne : members.map Feature.lat ≠ [] := by simpa using hne
  have hlonmne : members.map Feature.lon ≠ [] := by simpa using hne
  have hl := avg_in_bounds (members.map Feature.lat) hlatmne (-90) 90 hlatb
  have ho := avg_in_bounds (members.map Feature.lon) hlonmne (-180) 180 hlonb
  rw [List.length_map] at hl ho
  rw [← heq]
  refine ⟨?_, ?_, ?_, ?_⟩
  · simpa [cellToFeature, hlon, hcount] using ho.1
  · simpa [cellToFeature, hlon, hcount] using ho.2
  · simpa [cellToFeature, hlat, hcount] using hl.1
  · simpa [cellToFeature, hlat, hcount] using hl.2

/-- Witness for C6 at a concrete input. -/
theorem merge_pipeline_in_range_witness :
    featureInRange (⟨"jcc", "a", none, none, 5, 6⟩ : Feature) := by
  have h := merge_pipeline_in_range [⟨"jcc", "a", none, none, 5, 6⟩] []
    (by with_unfolding_all decide)
  exact h.1 ⟨"jcc", "a", none, none, 5, 6⟩ (by with_unfolding_all decide)

-- ------------------------------------------------------------------
-- `build-data.js` : `validateFeature`
-- ------------------------------------------------------------------

/-- The shape `validateFeature` inspects: `feature.type`,
`feature.properties?.category`, `feature.properties?.name`,
`feature.geometry?.coordinates`.  `none` models an absent field; an absent
`properties`/`geometry` object makes its inner fields `none` via optional
chaining. -/
structure VFeature where
  type : String
  category : Option String
  name : Option String
  coordinates : Option (List ℚ)
deriving DecidableEq, Repr

/-- The `feature.type !== 'Feature'` check. -/
def typeErrors (f : VFeature) : List String :=
  if f.type ≠ "Feature" then ["Missing or invalid type"] else []

/-- The category checks: `!category` (absent or empty string is falsy) gives
`Missing category`, a category outside `VALID_CATEGORIES` gives
`Invalid category: ...`. -/
def categoryErrors (f : VFeature) : List String :=
  match f.category with
  | none => ["Missing category"]
  | some c =>
    if c = "" then ["Missing category"]
    else if c ∈ VALID_CATEGORIES then [] else ["Invalid category: " ++ c]

/-- The `!feature.properties?.name` check (empty string is falsy). -/
def nameErrors (f : VFeature) : List String :=
  match f.name with
  | none => ["Missing name"]
  | some n => if n = "" then ["Missing name"] else []

/-- The coordinate checks: missing coordinates or a length other than 2 give
`Invalid coordinates`; out-of-range `[lon, lat]` gives
`Coordinates out of range`. -/
def coordErrors (f : VFeature) : List String :=
  match f.coordinates with
  | none => ["Invalid coordinates"]
  | some cs =>
    match cs with
    | [lon, lat] =>
      if lon < -180 ∨ lon > 180 ∨ lat < -90 ∨ lat > 90 then
        ["Coordinates out of range"]
      else []
    | _ => ["Invalid coordinates"]

/-- `build-data.js` `validateFeature`: the four checks push their error
messages into one array, in source order. -/
def validateFeature (f : VFeature) : List String :=
  typeErrors f ++ categoryErrors f ++ nameErrors f ++ coordErrors f

theorem typeErrors_nil_iff (f : VFeature) :
    typeErrors f = [] ↔ f.type = "Feature" := by
  by_cases h : f.type = "Feature" <;> simp [typeErrors, h]

theorem categoryErrors_nil_iff (f : VFeature) :
    categoryErrors f = [] ↔ ∃ c, f.category = some c ∧ c ∈ VALID_CATEGORIES := by
  cases hc : f.category with
  | none => simp [categoryErrors, hc]
  | some c =>
    by_cases he : c = ""
    · subst he
      have : ("" : String) ∉ VALID_CATEGORIES := by decide
      simp [categoryErrors, hc, this]
    · by_cases hv : c ∈ VALID_CATEGORIES <;> simp [categoryErrors, hc, he, hv]

theorem nameErrors_nil_iff (f : VFeature) :
    nameErrors f = [] ↔ ∃ n, f.name = some n ∧ n ≠ "" := by
  cases hn : f.name with
  | none => simp [nameErrors, hn]
  | some n => by_cases he : n = "" <;> simp [nameErrors, hn, he]

theorem coordErrors_nil_iff (f : VFeature) :
    coordErrors f = [] ↔
      ∃ lon lat, f.coordinates = some [lon, lat]
        ∧ -180 ≤ lon ∧ lon ≤ 180 ∧ -90 ≤ lat ∧ lat ≤ 90 := by
  cases hc : f.coordinates with
  | none => simp [coordErrors, hc]
  | some cs =>
    match cs with
    | [] => simp [coordErrors, hc]
    | [x] => simp [coordErrors, hc]
    | [lon, lat] =>
      by_cases hr : lon < -180 ∨ lon > 180 ∨ lat < -90 ∨ lat > 90
      · simp only [coordErrors, hc, if_pos hr]
        constructor
        · intro h; cases h
        · rintro ⟨lon', lat', heq, h1, h2, h3, h4⟩
          obtain ⟨rfl, rfl⟩ : lon = lon' ∧ lat = lat' := by
            simpa using heq
          rcases hr with h | h | h | h <;> linarith
      · simp only [coordErrors, hc, if_neg hr]
        push_neg at hr
        obtain ⟨h1, h2, h3, h4⟩ := hr
        simp only [true_iff]
        exact ⟨lon, lat, rfl, h1, h2, h3, h4⟩
    | x :: y :: z :: rest => simp [coordErrors, hc]

/-- Claim C4: `validateFeature` returns no errors exactly when the feature
has type `'Feature'`, a category from the valid enum, a non-empty name, and
a 2-element coordinate array with longitude in `[-180,180]` and latitude in
`[-90,90]`; any violation yields a non-empty error list. -/
theorem validateFeature_nil_iff (f : VFeature) :
    validateFeature f = [] ↔
      (f.type = "Feature"
       ∧ (∃ c, f.category = some c ∧ c ∈ VALID_CATEGORIES)
       ∧ (∃ n, f.name = some n ∧ n ≠ "")
       ∧ (∃ lon lat, f.coordinates = some [lon, lat]
           ∧ -180 ≤ lon ∧ lon ≤ 180 ∧ -90 ≤ lat ∧ lat ≤ 90)) := by
  rw [validateFeature]
  rw [List.append_eq_nil, List.append_eq_nil, List.append_eq_nil]
  rw [typeErrors_nil_iff, categoryErrors_nil_iff, nameErrors_nil_iff,
    coordErrors_nil_iff]
  tauto

-- ------------------------------------------------------------------
-- Claim C10: the two scripts disagree on the category enum
-- ------------------------------------------------------------------

/-- Claim C10: `'vaults'` passes `merge-data.js`'s category filter (a
`vaults` feature reaches the merged output) while `build-data.js`'s
`validateFeature` rejects every `vaults` feature, because `CATEGORIES`
contains `'vaults'` and `VALID_CATEGORIES` does not. -/
theorem vaults_category_disagreement :
    ("vaults" ∈ CATEGORIES ∧ "vaults" ∉ VALID_CATEGORIES)
    ∧ (∀ f : Feature, f.category = "vaults" → f ∈ mergeFeatures [f] [])
    ∧ (∀ vf : VFeature, vf.category = some "vaults" → validateFeature vf ≠ []) := by
  refine ⟨⟨by decide, by decide⟩, ?_, ?_⟩
  · intro f hf
    have hcat : f.category ∈ CATEGORIES := by rw [hf]; decide
    simp [mergeFeatures, mergeOsmStep, hcat, seenLookup]
  · intro vf hvf
    have hcat : categoryErrors vf = ["Invalid category: vaults"] := by
      rw [categoryErrors, hvf]
      decide
    intro hnil
    rw [validateFeature] at hnil
    rw [List.append_eq_nil, List.append_eq_nil, List.append_eq_nil] at hnil
    rw [hcat] at hnil
    exact List.cons_ne_nil _ _ hnil.1.1.2

/-- Witness for C10: a concrete `vaults` feature is merged but invalid. -/
theorem vaults_category_disagreement_witness :
    (⟨"vaults", "v", none, none, 0, 0⟩ : Feature)
      ∈ mergeFeatures [⟨"vaults", "v", none, none, 0, 0⟩] []
    ∧ validateFeature ⟨"Feature", some "vaults", some "v", some [0, 0]⟩ ≠ [] := by
  constructor
  · exact vaults_category_disagreement.2.1 _ rfl
  · exact vaults_category_disagreement.2.2 _ rfl

-- ------------------------------------------------------------------
-- `fetch-osm-data.js` / `fetch-by-metro.js` : `osmToFeature`
-- ------------------------------------------------------------------

/-- JS truthiness of a nullable string: `null`/`undefined` and `""` are
falsy. -/
def strTruthy (o : Option String) : Bool :=
  match o with
  | none => false
  | some s => s ≠ ""

/-- A chain `a || b || ... || null`: the first truthy string, else `null`. -/
def firstTruthyS : List (Option String) → Option String
  | [] => none
  | o :: rest => if strTruthy o then o else firstTruthyS rest

/-- `a || b || 'd'`: the first truthy string, else the default literal. -/
def strOrDefault (l : List (Option String)) (d : String) : String :=
  match firstTruthyS l with
  | some s => s
  | none => d

/-- `[...].filter(Boolean)` over nullable strings. -/
def collectTruthy (l : List (Option String)) : List String :=
  l.filterMap fun o =>
    match o with
    | some s => if s = "" then none else some s
    | none => none

/-- The OSM tags the converters read.  All tags are nullable strings. -/
structure OsmTags where
  name : Option String
  nameEn : Option String
  addrHousenumber : Option String
  addrStreet : Option String
  addrCity : Option String
  addrState : Option String
  addrPostcode : Option String
  website : Option String
  url : Option String
  contactWebsite : Option String
  phone : Option String
  contactPhone : Option String
  shop : Option String
  cuisine : Option String
deriving DecidableEq, Repr

/-- `element.tags || {}`. -/
def emptyTags : OsmTags :=
  ⟨none, none, none, none, none, none, none, none, none, none, none, none,
   none, none⟩

/-- An Overpass API element: a node carries `lon`/`lat` directly, a way
carries a `center` object.  Coordinates inside are nullable numbers. -/
structure OsmElement where
  id : ℤ
  type : String
  center : Option (Option ℚ × Option ℚ)
  lon : Option ℚ
  lat : Option ℚ
  tags : Option OsmTags
deriving DecidableEq, Repr

/-- `element.center ? element.center.lon : element.lon`. -/
def resolvedLon (el : OsmElement) : Option ℚ :=
  match el.center with
  | some c => c.1
  | none => el.lon

/-- `element.center ? element.center.lat : element.lat`. -/
def resolvedLat (el : OsmElement) : Option ℚ :=
  match el.center with
  | some c => c.2
  | none => el.lat

/-- The GeoJSON feature built by `fetch-osm-data.js` `osmToFeature`. -/
structure OsmFeature where
  category : String
  name : String
  address : Option String
  website : Option String
  phone : Option String
  osmId : ℤ
  osmType : String
  weight : Nat
  lon : ℚ
  lat : ℚ
deriving DecidableEq, Repr

/-- `fetch-osm-data.js` `osmToFeature`: `null` when the resolved longitude
or latitude is JS-falsy (`undefined` or `0`), the converted feature
otherwise. -/
def osmToFeature (element : OsmElement) (category : String) : Option OsmFeature :=
  match resolvedLon element, resolvedLat element with
  | some lo, some la =>
    if lo = 0 ∨ la = 0 then none
    else
      let tags := element.tags.getD emptyTags
      let addressParts := collectTruthy
        [tags.addrHousenumber, tags.addrStreet, tags.addrCity,
         tags.addrState, tags.addrPostcode]
      some
        { category := category
          name := strOrDefault [tags.name, tags.nameEn] "Unknown"
          address :=
            if addressParts.length > 0
            then some (String.intercalate ", " addressParts) else none
          website := firstTruthyS [tags.website, tags.url, tags.contactWebsite]
          phone := firstTruthyS [tags.phone, tags.contactPhone]
          osmId := element.id
          osmType := element.type
          weight := 1
          lon := lo
          lat := la }
  | _, _ => none

/-- The feature built by `fetch-by-metro.js` `osmToFeature` (no `osmType`,
an extra `cuisine`, category derived from the tags). -/
structure MetroFeature where
  category : String
  name : String
  address : Option String
  website : Option String
  phone : Option String
  cuisine : Option String
  osmId : ℤ
  weight : Nat
  lon : ℚ
  lat : ℚ
deriving DecidableEq, Repr

def charListHasPre : List Char → List Char → Bool
  | [], _ => true
  | _ :: _, [] => false
  | p :: ps, c :: cs => p = c && charListHasPre ps cs

def charListHasSub (p : List Char) : List Char → Bool
  | [] => charListHasPre p []
  | c :: cs => charListHasPre p (c :: cs) || charListHasSub p cs

/-- The regex test `/chabad/i.test(s)`: case-insensitive substring. -/
def chabadTest (s : String) : Bool :=
  charListHasSub "chabad".toList s.toLower.toList

/-- The category logic of `fetch-by-metro.js`: `chabad` when the name
matches `/chabad/i`, `groceries` for supermarket/grocery/kosher shops,
`restaurants` otherwise (bakeries included). -/
def metroCategory (tags : OsmTags) : String :=
  if strTruthy tags.name ∧ chabadTest (tags.name.getD "") then "chabad"
  else if tags.shop = some "supermarket" ∨ tags.shop = some "grocery"
    ∨ tags.shop = some "kosher" then "groceries"
  else if tags.shop = some "bakery" then "restaurants"
  else "restaurants"

/-- `fetch-by-metro.js` `osmToFeature`. -/
def osmToFeatureMetro (element : OsmElement) : Option MetroFeature :=
  match resolvedLon element, resolvedLat element with
  | some lo, some la =>
    if lo = 0 ∨ la = 0 then none
    else
      let tags := element.tags.getD emptyTags
      let addressParts := collectTruthy
        [tags.addrHousenumber, tags.addrStreet, tags.addrCity, tags.addrState]
      some
        { category := metroCategory tags
          name := strOrDefault [tags.name] "Unknown"
          address :=
            if addressParts.length > 0
            then some (String.intercalate ", " addressParts) else none
          website := firstTruthyS [tags.website, tags.url]
          phone := firstTruthyS [tags.phone]
          cuisine := tags.cuisine
          osmId := element.id
          weight := 1
          lon := lo
          lat := la }
  | _, _ => none

/-- An element sitting exactly on the equator (latitude `0`). -/
def equatorElement : OsmElement :=
  { id := 1, type := "node", center := none, lon := some 5, lat := some 0,
    tags := none }

/-- Claim C9: both `osmToFeature` converters return `null` exactly when the
resolved longitude or latitude is absent or `0` (JS falsiness); in
particular an element on the equator is dropped although its coordinates
are valid. -/
theorem osmToFeature_none_iff :
    (∀ (el : OsmElement) (cat : String),
      osmToFeature el cat = none ↔
        (resolvedLon el = none ∨ resolvedLon el = some 0
         ∨ resolvedLat el = none ∨ resolvedLat el = some 0))
    ∧ (∀ el : OsmElement,
      osmToFeatureMetro el = none ↔
        (resolvedLon el = none ∨ resolvedLon el = some 0
         ∨ resolvedLat el = none ∨ resolvedLat el = some 0))
    ∧ osmToFeature equatorElement "synagogues" = none
    ∧ osmToFeatureMetro equatorElement = none := by
  have h1 : ∀ (el : OsmElement) (cat : String),
      osmToFeature el cat = none ↔
        (resolvedLon el = none ∨ resolvedLon el = some 0
         ∨ resolvedLat el = none ∨ resolvedLat el = some 0) := by
    intro el cat
    cases hlon : resolvedLon el with
    | none => simp [osmToFeature, hlon]
    | some lo =>
      cases hlat : resolvedLat el with
      | none => simp [osmToFeature, hlon, hlat]
      | some la =>
        by_cases hz : lo = 0 ∨ la = 0
        · rcases hz with rfl | rfl <;> simp [osmToFeature, hlon, hlat]
        · push_neg at hz
          simp [osmToFeature, hlon, hlat, hz.1, hz.2]
  have h2 : ∀ el : OsmElement,
      osmToFeatureMetro el = none ↔
        (resolvedLon el = none ∨ resolvedLon el = some 0
         ∨ resolvedLat el = none ∨ resolvedLat el = some 0) := by
    intro el
    cases hlon : resolvedLon el with
    | none => simp [osmToFeatureMetro, hlon]
    | some lo =>
      cases hlat : resolvedLat el with
      | none => simp [osmToFeatureMetro, hlon, hlat]
      | some la =>
        by_cases hz : lo = 0 ∨ la = 0
        · rcases hz with rfl | rfl <;> simp [osmToFeatureMetro, hlon, hlat]
        · push_neg at hz
          simp [osmToFeatureMetro, hlon, hlat, hz.1, hz.2]
  refine ⟨h1, h2, ?_, ?_⟩
  · rw [h1]
    simp [resolvedLat, equatorElement]
  · rw [h2]
    simp [resolvedLat, equatorElement]

-- ------------------------------------------------------------------
-- `build-data.js` (fetch-additional part) `fetchWithRetry`,
-- `fetch-by-metro.js` `fetchMetro`
-- ------------------------------------------------------------------

/-- An Overpass response body `{ elements: [...] }`. -/
structure OverpassResult where
  elements : List OsmElement
deriving DecidableEq, Repr

/-- The retry loop, `attempts` attempts already made; `outcome i = some r`
models a fetch whose response is ok and parses to `r` at attempt `i`,
`outcome i = none` models a thrown network error or a non-ok response (the
inter-attempt delays have no observable effect on the result). -/
def fetchWithRetryAux (outcome : Nat → Option OverpassResult) :
    Nat → Nat → OverpassResult × Nat
  | 0, attempts => (⟨[]⟩, attempts)
  | fuel + 1, attempts =>
    match outcome attempts with
    | some r => (r, attempts + 1)
    | none => fetchWithRetryAux outcome fuel (attempts + 1)

/-- `fetchWithRetry(query, retries)` (default `retries = 3`): returns the
first successful response, or `{ elements: [] }` after `retries` failed
attempts; the second component counts the attempts made. -/
def fetchWithRetry (outcome : Nat → Option OverpassResult) (retries : Nat) :
    OverpassResult × Nat :=
  fetchWithRetryAux outcome retries 0

/-- `fetch-by-metro.js` `fetchMetro`: a single attempt; a non-ok response or
a thrown error yields `{ elements: [] }`. -/
def fetchMetro (outcome : Option OverpassResult) : OverpassResult :=
  match outcome with
  | some r => r
  | none => ⟨[]⟩

theorem fetchWithRetryAux_all_fail (outcome : Nat → Option OverpassResult)
    (h : ∀ i, outcome i = none) :
    ∀ (fuel attempts : Nat),
      fetchWithRetryAux outcome fuel attempts = (⟨[]⟩, attempts + fuel) := by
  intro fuel
  induction fuel with
  | zero => intro attempts; simp [fetchWithRetryAux]
  | succ fuel ih =>
    intro attempts
    rw [fetchWithRetryAux, h attempts, ih (attempts + 1)]
    simp
    omega

/-- Claim C7: when every attempt fails, `fetchWithRetry` performs exactly
its `retries` attempts (3 by default) and returns `{ elements: [] }`, and
`fetchMetro` returns `{ elements: [] }` after its single failed attempt;
no error escapes to the caller (both functions are total). -/
theorem fetch_failure_returns_empty (outcome : Nat → Option OverpassResult)
    (h : ∀ i, outcome i = none) (retries : Nat) :
    fetchWithRetry outcome retries = (⟨[]⟩, retries)
    ∧ fetchWithRetry outcome 3 = (⟨[]⟩, 3)
    ∧ fetchMetro none = ⟨[]⟩ := by
  refine ⟨?_, ?_, rfl⟩
  · rw [fetchWithRetry, fetchWithRetryAux_all_fail outcome h retries 0]
    simp
  · rw [fetchWithRetry, fetchWithRetryAux_all_fail outcome h 3 0]

/-- Witness for C7: three failing attempts yield the empty result set. -/
theorem fetch_failure_returns_empty_witness :
    fetchWithRetry (fun _ => none) 3 = (⟨[]⟩, 3)
    ∧ fetchMetro none = ⟨[]⟩ := by
  have h := fetch_failure_returns_empty (fun _ => none) (fun _ => rfl) 3
  exact ⟨h.1, h.2.2⟩
